import Mathlib

/-
Shallow embedding of src/opensubdiv/far/patchTablesFactory.h
(FarPatchTablesFactory): the second classification pass of the factory
constructor, the patch-array layout planner (pushPatchArray / Create),
the one-ring gatherer (getOneRing), the Gregory quad-offset builder
(getQuadOffsets), the vertex valence table builder
(GatherNeighborsOperator) and the quad-offset assembly step of Create.

The Hbr half-edge mesh is an external collaborator: its adjacency
queries are modelled as data carried by the embedded structures
(per-face vertex/edge attributes, neighbor lists, total adjacency
functions), exactly the values the source reads through the Hbr API.
-/

namespace FarPatchTablesFactory

/-- Attributes of one face vertex read by pass 2 of the classifier
(HbrVertex: OnBoundary, IsSingular, GetValence, IsExtraordinary,
and the adaptive flags isTagged / wasTagged). -/
structure VertData where
  onBoundary : Bool
  isSingular : Bool
  valence : Nat
  isExtraordinary : Bool
  isTagged : Bool
  wasTagged : Bool
deriving DecidableEq

/-- Attributes of one quad face read by pass 2 (lines 285-477).
vert j / edgeHead j model f.GetVertex(j) and
f.GetEdge(j) adaptive flag isTriangleHead for j = 0..3. -/
structure Face where
  faceIsExtraordinary : Bool
  isHole : Bool
  isTagged : Bool
  flagIsExtraordinary : Bool
  vert : Nat → VertData
  edgeHead : Nat → Bool

/-- Count of boundary vertices accumulated by the pass-2 scan (line 303). -/
def boundaryVerts (f : Face) : Nat :=
  (List.range 4).countP fun j => (f.vert j).onBoundary

/-- The local isExtraordinary flag of the pass-2 scan (lines 302-311). -/
def scanExtra (f : Face) : Bool :=
  (List.range 4).any fun j =>
    if (f.vert j).onBoundary then
      (f.vert j).isSingular || decide ((f.vert j).valence > 3)
    else
      (f.vert j).isExtraordinary

/-- The local isTagged flag of the pass-2 scan (lines 316-317). -/
def anyVertTagged (f : Face) : Bool :=
  (List.range 4).any fun j => (f.vert j).isTagged

/-- The local wasTagged flag of the pass-2 scan (lines 319-320). -/
def anyVertWasTagged (f : Face) : Bool :=
  (List.range 4).any fun j => (f.vert j).wasTagged

/-- Count of triangle-head edges of the face (lines 324-327). -/
def triangleHeads (f : Face) : Nat :=
  (List.range 4).countP fun j => f.edgeHead j

/-- The isConnected flag: some edge and its successor are both
triangle heads (lines 328-329). -/
def isConnected (f : Face) : Bool :=
  (List.range 4).any fun j => f.edgeHead j && f.edgeHead ((j + 1) % 4)

/-- computeBoundaryPatchRotation (lines 192-202): number of edges scanned
before the first edge whose two endpoints are both on the boundary.
List.findIdx returns 4 when no such edge exists, matching the C++ loop
falling through with rot == 4. -/
def computeBoundaryPatchRotation (f : Face) : Nat :=
  (List.range 4).findIdx fun i =>
    (f.vert i).onBoundary && (f.vert ((i + 1) % 4)).onBoundary

/-- computeCornerPatchRotation (lines 205-214): number of edges scanned
before vertex (i+3)%4 is not a boundary vertex. -/
def computeCornerPatchRotation (f : Face) : Nat :=
  (List.range 4).findIdx fun i => !(f.vert ((i + 3) % 4)).onBoundary

/-- Transition constellation types kTransition0 .. kTransition4. -/
inductive TransType
  | T0
  | T1
  | T2
  | T3
  | T4
deriving DecidableEq

/-- The transition type resolved from the triangle-head count and the
isConnected flag (switch at lines 396-436); none models the unreachable
default where the assert tidx greater-equal 0 would fire. -/
def transTypeOf (f : Face) : Option TransType :=
  match triangleHeads f with
  | 1 => some .T0
  | 2 => some (if isConnected f then .T1 else .T4)
  | 3 => some .T2
  | 4 => some .T3
  | _ => none

/-- The rotation computed by the transition switch (lines 396-436):
case 1 counts edges before the first triangle head; case 2 searches the
connected pair or the first head; case 3 counts edges before the first
non-head; case 4 and the default leave the rotation at 0. -/
def transRots (f : Face) : Nat :=
  match triangleHeads f with
  | 1 => (List.range 4).findIdx fun j => f.edgeHead j
  | 2 =>
    if isConnected f then
      (List.range 4).findIdx fun j => f.edgeHead j && f.edgeHead ((j + 3) % 4)
    else
      (List.range 4).findIdx fun j => f.edgeHead j
  | 3 => (List.range 4).findIdx fun j => !f.edgeHead j
  | _ => 0

/-- Pattern index of a transition type inside the array of 6 counters:
tidx + 1, pattern 0 being the non-transition bucket (line 447). -/
def patIdx : TransType → Fin 6
  | .T0 => 1
  | .T1 => 2
  | .T2 => 3
  | .T3 => 4
  | .T4 => 5

/-- Patch type values of the face adaptive flags (HbrFace kNone, kEnd,
kFull, kGregory). -/
inductive PatchType
  | kNone
  | kEnd
  | kFull
  | kGregory
deriving DecidableEq

/-- The face adaptive flags written by pass 2 and read back by Create:
patchType, transitionType, rots, brots, bverts, and the externally
seeded isExtraordinary flag (read by Create at lines 613 and 676). -/
structure Flags where
  patchType : PatchType := .kNone
  transitionType : Option TransType := none
  rots : Nat := 0
  brots : Nat := 0
  bverts : Nat := 0
  isExtraordinary : Bool := false
deriving DecidableEq

/-- Identifies one field of the Counter struct PatchTypes of int:
R, B[0..3], C[0..3], G[0..1]. -/
inductive BucketKind
  | R
  | B (r : Fin 4)
  | C (r : Fin 4)
  | G (i : Fin 2)
deriving DecidableEq

/-- One counter bucket: a pattern index (0 = non-transition, 1..5 = the
five transition patterns) together with the Counter field. -/
structure Bucket where
  pattern : Fin 6
  kind : BucketKind
deriving DecidableEq

/-- Rotation index reduced into Fin 4. -/
def mkRot (n : Nat) : Fin 4 :=
  ⟨n % 4, Nat.mod_lt n (by norm_num)⟩

instance : Fintype BucketKind :=
  Fintype.ofList
    ([.R] ++ ((List.finRange 4).map .B) ++ ((List.finRange 4).map .C) ++
      ((List.finRange 2).map .G))
    (by
      intro x
      cases x with
      | R => simp
      | B r => simp [List.mem_map]
      | C r => simp [List.mem_map]
      | G i => simp [List.mem_map])

instance : Fintype Bucket :=
  Fintype.ofEquiv (Fin 6 × BucketKind)
    { toFun := fun x => ⟨x.1, x.2⟩
      invFun := fun b => (b.pattern, b.kind)
      left_inv := fun _ => rfl
      right_inv := fun _ => rfl }

/-- The full counter state: one count per bucket, all six Counter
structs _patchCtr[0..5] flattened. -/
def Counters : Type := Bucket → Nat

/-- The sum of the patch counts over every (pattern, type, rotation)
bucket. -/
def Counters.total (c : Counters) : Nat :=
  Finset.univ.sum fun b : Bucket => c b

/-- A counter increment: bump the one bucket pass 2 selected, or leave
the counters unchanged when no bucket was selected. -/
def applyBump (c : Counters) : Option Bucket → Counters
  | none => c
  | some b => Function.update c b (c b + 1)

/-- Result of pass 2 for one face: the adaptive flags it stores and the
counter bucket it increments (none when no counter is touched). -/
structure Classified where
  flags : Flags
  bump : Option Bucket
deriving DecidableEq

/-- Pass 2 of the factory constructor for one face (lines 285-477).
The result is none exactly when the face runs into assert(0): the
transition branch with a non-extraordinary face whose boundary-vertex
count is neither 0, 1, 2 nor 3 (line 470), or the unreachable
transition-type default. Skipped faces (extraordinary by subdivision,
holes, tagged faces, faces without the wasTagged mark) leave their
flags at the scanned values and bump no counter. -/
def classifyFace (f : Face) : Option Classified :=
  if f.faceIsExtraordinary || f.isHole then
    some ⟨{ isExtraordinary := f.flagIsExtraordinary }, none⟩
  else
    let bv := boundaryVerts f
    let extra := scanExtra f
    let base : Flags :=
      { patchType := if anyVertWasTagged f then .kEnd else .kNone,
        bverts := bv,
        isExtraordinary := f.flagIsExtraordinary }
    if f.isTagged then
      some ⟨base, none⟩
    else if !anyVertTagged f && anyVertWasTagged f then
      if triangleHeads f = 0 then
        if !extra && !decide (bv = 1) then
          if bv = 0 then
            some ⟨{ base with patchType := .kFull }, some ⟨0, .R⟩⟩
          else if bv = 2 then
            some ⟨{ base with patchType := .kFull, rots := computeBoundaryPatchRotation f }, some ⟨0, .B 0⟩⟩
          else if bv = 3 then
            some ⟨{ base with patchType := .kFull, rots := computeCornerPatchRotation f }, some ⟨0, .C 0⟩⟩
          else
            some ⟨{ base with patchType := .kFull }, none⟩
        else
          if bv = 0 then
            some ⟨{ base with patchType := .kGregory }, some ⟨0, .G 0⟩⟩
          else
            some ⟨{ base with patchType := .kGregory }, some ⟨0, .G 1⟩⟩
      else
        match transTypeOf f with
        | none => none
        | some tt =>
          let r0 := transRots f
          let tbase : Flags := { base with transitionType := some tt, rots := r0 }
          if !extra && !decide (bv = 1) then
            if bv = 0 then
              some ⟨tbase, some ⟨patIdx tt, .R⟩⟩
            else if bv = 2 then
              let rot := computeBoundaryPatchRotation f
              let br := (4 - r0 + rot) % 4
              some ⟨{ tbase with brots := br, rots := rot }, some ⟨patIdx tt, .B (mkRot br)⟩⟩
            else if bv = 3 then
              let rot := computeCornerPatchRotation f
              let br := (4 - r0 + rot) % 4
              some ⟨{ tbase with brots := br, rots := rot }, some ⟨patIdx tt, .C (mkRot br)⟩⟩
            else
              none
          else
            some ⟨tbase, none⟩
    else
      some ⟨base, none⟩

/-- One step of the pass-2 loop over faces: classify the face and apply
its counter increment; a face that aborts poisons the whole pass. -/
def pass2Step (acc : Option Counters) (f : Face) : Option Counters :=
  acc.bind fun c => (classifyFace f).map fun r => applyBump c r.bump

/-- The pass-2 loop of the factory constructor over the face list,
accumulating the counters; none when some face hits assert(0). -/
def pass2 (fs : List Face) : Option Counters :=
  fs.foldl pass2Step (some fun _ => 0)

/-- Eligibility in the sense of the claim: a non-hole face, not
extraordinary by subdivision, untagged (face flag and vertex flags),
whose vertices carry the wasTagged mark. -/
def eligibleFace (f : Face) : Bool :=
  !f.faceIsExtraordinary && !f.isHole && !f.isTagged &&
  !anyVertTagged f && anyVertWasTagged f

/-- The faces whose classification increments a counter bucket: the
eligible faces, except full-patch faces with 4 boundary vertices (the
silent default of the Full switch) and transition faces with
extraordinary or one-boundary-vertex topology (which get no bucket). -/
def countedFace (f : Face) : Bool :=
  eligibleFace f &&
    (if triangleHeads f = 0 then
      !(!scanExtra f && decide (boundaryVerts f = 4))
    else
      !scanExtra f && !decide (boundaryVerts f = 1))

/-- Outcome of the patch-population dispatch of Create for one face. -/
inductive PopAction
  | noOutput
  | fullPatch (ringsize : Nat) (brots : Nat)
  | gregoryPatch (boundary : Bool)
  | transPatch (pattern : Fin 6) (ringsize : Nat) (rot : Nat)
deriving DecidableEq

/-- The per-face population dispatch of Create (lines 604-707), driven by
the adaptive flags stored by pass 2. isTransitionPatch() is the Hbr
accessor for a set transition type. The result is none exactly where the
code aborts: the default assert(0) of the Full switch (line 639, a Full
patch whose boundary-vertex count is neither 0, 1, 2 nor 3) and the
assert(false) for transition patches with extraordinary or
one-boundary-vertex topology (line 705). -/
def populateFace (fl : Flags) : Option PopAction :=
  match fl.transitionType with
  | none =>
    if fl.patchType = .kFull then
      if !fl.isExtraordinary && !decide (fl.bverts = 1) then
        if fl.bverts = 0 then some (.fullPatch 16 fl.brots)
        else if fl.bverts = 2 then some (.fullPatch 12 ((fl.rots + 1) % 4))
        else if fl.bverts = 3 then some (.fullPatch 9 ((fl.rots + 1) % 4))
        else none
      else some .noOutput
    else if fl.patchType = .kGregory then
      if fl.bverts = 0 then some (.gregoryPatch false)
      else some (.gregoryPatch true)
    else some .noOutput
  | some tt =>
    if !fl.isExtraordinary && !decide (fl.bverts = 1) then
      if fl.bverts = 0 then some (.transPatch (patIdx tt) 16 fl.rots)
      else if fl.bverts = 2 then some (.transPatch (patIdx tt) 12 fl.brots)
      else if fl.bverts = 3 then some (.transPatch (patIdx tt) 9 fl.brots)
      else some .noOutput
    else none

/-- Adjacency queries of the Hbr half-edge mesh used by getOneRing,
modelled as total functions over integer edge and vertex identifiers
(the C++ calls return pointers that are assumed valid on a well-formed
mesh): GetNext, GetPrev, GetOpposite, GetOrgVertex, GetDestVertex,
GetNextEdge, GetIncidentEdge and the vertex-to-vertex GetEdge. -/
structure HbrOps where
  next : Nat → Nat
  prev : Nat → Nat
  opposite : Nat → Nat
  org : Nat → Nat
  dest : Nat → Nat
  nextEdge : Nat → Nat → Nat
  incident : Nat → Nat
  edgeBtwn : Nat → Nat → Nat

/-- The face data getOneRing reads: the 4 vertex identifiers and the
stored rotation of the adaptive flags. -/
structure RingFace where
  vertId : Nat → Nat
  rots : Nat

/-- Gather loop body of getOneRing: k times, advance the edge with
GetNext and emit the origin vertex of the new edge (lines 846-849,
879-882, 885-888, 917-920). -/
def walkNext (m : HbrOps) (e : Nat) : Nat → List Nat
  | 0 => []
  | k + 1 => (m.next e) :: walkNext m (m.next e) k

/-- Origin vertices collected by walkNext. -/
def walkNextOrgs (m : HbrOps) (rt : Nat → Nat) (e : Nat) (k : Nat) : List Nat :=
  (walkNext m e k).map fun x => rt (m.org x)

/-- The values getOneRing writes, in write order (lines 810-923): first
the 4 face corners rotated by the stored rotation, then the outer ring
per ring size; every identifier goes through the global remap table rt.
Ring sizes other than 16, 12 and 9 take no branch, as in the source. -/
def oneRingValues (m : HbrOps) (rt : Nat → Nat) (f : RingFace) (ringsize : Nat) :
    List Nat :=
  ((List.range 4).map fun i => rt (f.vertId ((i + f.rots) % 4))) ++
  (if ringsize = 16 then
    (List.range 4).flatMap fun i =>
      let rot := i + f.rots
      let v0 := f.vertId (rot % 4)
      let v1 := f.vertId ((rot + 1) % 4)
      walkNextOrgs m rt (m.nextEdge v0 (m.nextEdge v0 (m.edgeBtwn v0 v1))) 3
  else if ringsize = 12 then
    let v0 := f.vertId ((0 + f.rots) % 4)
    let v1 := f.vertId ((1 + f.rots) % 4)
    let v2 := f.vertId ((2 + f.rots) % 4)
    let v3 := f.vertId ((3 + f.rots) % 4)
    [rt (m.org (m.prev (m.opposite (m.prev (m.incident v0)))))] ++
    [rt (m.dest (m.incident v1))] ++
    walkNextOrgs m rt (m.nextEdge v2 (m.edgeBtwn v2 v1)) 3 ++
    walkNextOrgs m rt (m.nextEdge v3 (m.edgeBtwn v3 v2)) 3
  else if ringsize = 9 then
    let v0 := f.vertId ((0 + f.rots) % 4)
    let v2 := f.vertId ((2 + f.rots) % 4)
    let v3 := f.vertId ((3 + f.rots) % 4)
    [rt (m.org (m.prev (m.opposite (m.prev (m.incident v0)))))] ++
    [rt (m.dest (m.incident v2))] ++
    walkNextOrgs m rt (m.nextEdge v3 (m.edgeBtwn v3 v2)) 3
  else
    [])

/-- Slot of the n-th write: remap[idx % ringsize] for idx = 0, 1, ...
(the idx++ % ringsize indexing of getOneRing). -/
def oneRingSlots (remap : List Nat) (ringsize n : Nat) : List Nat :=
  (List.range n).map fun i => remap.getD (i % ringsize) 0

/-- getOneRing as the list of (slot, value) writes into result. -/
def getOneRing (m : HbrOps) (rt : Nat → Nat) (f : RingFace) (ringsize : Nat)
    (remap : List Nat) : List (Nat × Nat) :=
  let vs := oneRingValues m rt f ringsize
  (oneRingSlots remap ringsize vs.length).zip vs

/-- remapRegular of Create (line 541). -/
def remapRegular : List Nat := [5, 6, 10, 9, 4, 0, 1, 2, 3, 7, 11, 15, 14, 13, 12, 8]

/-- remapRegularBoundary of Create (line 542). -/
def remapRegularBoundary : List Nat := [1, 2, 6, 5, 0, 3, 7, 11, 10, 9, 8, 4]

/-- remapRegularCorner of Create (line 543). -/
def remapRegularCorner : List Nat := [1, 2, 5, 4, 0, 8, 7, 6, 3]

/-- Scan loop of GatherOffsetsOperator in getQuadOffsets (lines 952-972):
walking the surrounding vertices of one face corner in order, record the
scan index of every vertex that is one of the 4 face corners. -/
def gatherOffs (fvs : Fin 4 → Nat) : List Nat → Nat → List Nat
  | [], _ => []
  | v :: rest, idx =>
    if v = fvs 0 ∨ v = fvs 1 ∨ v = fvs 2 ∨ v = fvs 3 then
      idx :: gatherOffs fvs rest (idx + 1)
    else
      gatherOffs fvs rest (idx + 1)

/-- Adjacency-correction swap of getQuadOffsets (lines 990-991): the two
offsets (0 when fewer than two were found, as left by reset), swapped
when their signed difference is not 1. -/
def correctedPair (offs : List Nat) : Nat × Nat :=
  let o0 := offs.getD 0 0
  let o1 := offs.getD 1 0
  if (o1 : Int) - (o0 : Int) ≠ 1 then (o1, o0) else (o0, o1)

/-- The corrected offset pair of one corner of a Gregory face, from the
surrounding-vertex scan order of that corner. -/
def quadOffsetPair (fvs : Fin 4 → Nat) (surround : List Nat) : Nat × Nat :=
  correctedPair (gatherOffs fvs surround 0)

/-- The 16-bit packing of getQuadOffsets (line 994):
offset0 bitor (offset1 shifted left by 8). -/
def quadOffsetWord (fvs : Fin 4 → Nat) (surround : List Nat) : Nat :=
  (quadOffsetPair fvs surround).1 ||| ((quadOffsetPair fvs surround).2 <<< 8)

/-- getQuadOffsets (lines 926-996): one packed word per face corner,
surrounds i being the surrounding-vertex scan order that
ApplyOperatorSurroundingVertices presents at corner i. -/
def getQuadOffsets (fvs : Fin 4 → Nat) (surrounds : Fin 4 → List Nat) :
    Fin 4 → Nat :=
  fun i => quadOffsetWord fvs (surrounds i)

/-- One surrounding vertex of a center vertex as seen by
GatherNeighborsOperator (lines 748-766): its identifier, and the
destination of next of the center-to-neighbor edge when that edge
exists (none models a null GetEdge, where the diagonal falls back to
the neighbor itself). -/
structure NeighborInfo where
  id : Nat
  edgeDiag : Option Nat
deriving DecidableEq

/-- The (neighbor, diagonal) index pairs written by the surrounding
vertices walk, flattened in write order, both through the remap. -/
def gatherPairs (remap : Nat → Nat) (nbs : List NeighborInfo) : List Int :=
  nbs.flatMap fun nb => [(remap nb.id : Int), (remap (nb.edgeDiag.getD nb.id) : Int)]

/-- The valence accumulated by GatherNeighborsOperator: one increment per
surrounding vertex. -/
def gatherValence (nbs : List NeighborInfo) : Nat := nbs.length

/-- Slot 0 of a vertex row of the valence table (line 789): the
accumulated valence, negated when the vertex is on the boundary. -/
def valenceSlot0 (onBoundary : Bool) (nbs : List NeighborInfo) : Int :=
  if onBoundary then -(gatherValence nbs : Int) else (gatherValence nbs : Int)

/-- Patch types of the FarPatchTables descriptor. The descriptor itself
lives in far/patchTables.h, which is not under src. -/
inductive PatchKind
  | REGULAR
  | BOUNDARY
  | CORNER
  | GREGORY
  | GREGORY_BOUNDARY
deriving DecidableEq

/-- Modelled from the spec: a patch descriptor identifies one
homogeneous bucket of patches by pattern, type and rotation
(far/patchTables.h is not under src). -/
structure Descriptor where
  pattern : Fin 6
  kind : PatchKind
  rotation : Fin 4
deriving DecidableEq

/-- Modelled from the spec: control vertices per patch type, 16 for
regular, 12 for boundary, 9 for corner (the one-ring sizes of
getOneRing) and 4 for the two Gregory types (the 4-CV blocks Create
writes at lines 646-659); GetNumControlVertices of far/patchTables.h is
not under src. -/
def ncv : PatchKind → Nat
  | .REGULAR => 16
  | .BOUNDARY => 12
  | .CORNER => 9
  | .GREGORY => 4
  | .GREGORY_BOUNDARY => 4

/-- Modelled from the spec: the fixed total descriptor order iterated by
Create, regular, then boundary and corner in 4 rotations each, then the
two Gregory types, repeated for each of the 6 patterns (the descriptor
iterator of far/patchTables.h is not under src). -/
def descriptorList : List Descriptor :=
  (List.finRange 6).flatMap fun p =>
    [⟨p, .REGULAR, 0⟩] ++
    ((List.finRange 4).map fun r => ⟨p, .BOUNDARY, r⟩) ++
    ((List.finRange 4).map fun r => ⟨p, .CORNER, r⟩) ++
    [⟨p, .GREGORY, 0⟩, ⟨p, .GREGORY_BOUNDARY, 0⟩]

/-- One record of the PatchArrayVector: descriptor, vertex-index offset,
patch offset, patch count and quad-offset-table offset. -/
structure PatchArrayRec where
  desc : Descriptor
  vertIndex : Nat
  patchIndex : Nat
  npatches : Nat
  quadOffsetIndex : Nat
deriving DecidableEq

/-- The state pushPatchArray threads: the vector under construction and
the three running offsets voffset, poffset, qoffset. -/
structure PlanState where
  parray : List PatchArrayRec
  voffset : Nat
  poffset : Nat
  qoffset : Nat
deriving DecidableEq

/-- pushPatchArray (lines 521-536): counts is the per-descriptor patch
count read off the counters (counter.getValue). A zero count appends
nothing; a positive count appends one record carrying the current
offsets, then advances voffset by count times the control vertices of
the type, poffset by the count, and qoffset by 4 per patch only for the
GREGORY type. -/
def pushPatchArray (counts : Descriptor → Nat) (st : PlanState) (d : Descriptor) :
    PlanState :=
  let n := counts d
  if 0 < n then
    { parray := st.parray ++ [⟨d, st.voffset, st.poffset, n, st.qoffset⟩],
      voffset := st.voffset + n * ncv d.kind,
      poffset := st.poffset + n,
      qoffset := st.qoffset + (if d.kind = .GREGORY then n * 4 else 0) }
  else st

/-- The descriptor loop of Create (lines 559-561): fold pushPatchArray
over the canonical descriptor order starting from empty state. -/
def planArrays (counts : Descriptor → Nat) : PlanState :=
  descriptorList.foldl (pushPatchArray counts) ⟨[], 0, 0, 0⟩

/-- Contiguity of a patch-array vector from given start offsets: each
record carries the running offsets, has a positive count, and the
offsets advance by exactly the extent of the record. -/
def contiguousFrom (v p q : Nat) : List PatchArrayRec → Bool
  | [] => true
  | r :: rest =>
    decide (r.vertIndex = v) && decide (r.patchIndex = p) &&
    decide (r.quadOffsetIndex = q) && decide (0 < r.npatches) &&
    contiguousFrom (v + r.npatches * ncv r.desc.kind) (p + r.npatches)
      (q + (if r.desc.kind = .GREGORY then r.npatches * 4 else 0)) rest

/-- Overwrite of a buffer region: the std::copy of Create writing src
into buf starting at pos. -/
def overwriteAt (buf : List Nat) (pos : Nat) (src : List Nat) : List Nat :=
  buf.take pos ++ src ++ buf.drop (pos + src.length)

/-- Quad-offset assembly of Create (lines 802-804): resize the combined
table to (G0 + G1) * 4, copy the Gregory-regular block at the start and
the Gregory-boundary block at offset G0 * 4. -/
def assembleQuadOffsetTable (g0 g1 : Nat) (q0 q1 : List Nat) : List Nat :=
  overwriteAt (overwriteAt (List.replicate ((g0 + g1) * 4) 0) 0 q0) (g0 * 4) q1

/-- Index of the first triangle-head edge, scanning edges 0..3. -/
def headEdgeIdx (f : Face) : Nat :=
  (List.range 4).findIdx fun j => f.edgeHead j

/-- Index of the first edge that is not a triangle head, scanning edges
0..3. This follows the words of the spec (1 head: rotation = index of
the first non-head edge) and exists only to be compared against the
rotation the source computes. -/
def specFirstNonHeadIdx (f : Face) : Nat :=
  (List.range 4).findIdx fun j => !f.edgeHead j

/-- The rotation recomputed for boundary and corner topology: the
boundary rule at 2 boundary vertices, the corner rule otherwise. -/
def boundaryCornerRot (f : Face) : Nat :=
  if boundaryVerts f = 2 then computeBoundaryPatchRotation f
  else computeCornerPatchRotation f

/-- An interior regular vertex carrying the wasTagged mark. -/
def vInterior : VertData := ⟨false, false, 4, false, false, true⟩

/-- A boundary vertex of valence 2 carrying the wasTagged mark. -/
def vBoundary : VertData := ⟨true, false, 2, false, false, true⟩

/-- Untagged interior face whose edge 1 is the only triangle head. -/
def cf1 : Face :=
  { faceIsExtraordinary := false, isHole := false, isTagged := false,
    flagIsExtraordinary := false, vert := fun _ => vInterior,
    edgeHead := fun j => j == 1 }

/-- Untagged interior face whose edge 0 is the only triangle head. -/
def cf1w : Face :=
  { faceIsExtraordinary := false, isHole := false, isTagged := false,
    flagIsExtraordinary := false, vert := fun _ => vInterior,
    edgeHead := fun j => j == 0 }

/-- An isolated untagged quad: all 4 vertices on the boundary with
valence 2, no triangle heads. -/
def cfQuad : Face :=
  { faceIsExtraordinary := false, isHole := false, isTagged := false,
    flagIsExtraordinary := false, vert := fun _ => vBoundary,
    edgeHead := fun _ => false }

/-- Untagged face with one boundary edge (vertices 0 and 1 on the
boundary) and a single triangle head at edge 0. -/
def cf5 : Face :=
  { faceIsExtraordinary := false, isHole := false, isTagged := false,
    flagIsExtraordinary := false,
    vert := fun j => if j % 4 ≤ 1 then vBoundary else vInterior,
    edgeHead := fun j => j == 0 }

/-- Untagged transition face with exactly one boundary vertex (vertex 0)
and a single triangle head at edge 0: a transition Gregory face. -/
def cf9 : Face :=
  { faceIsExtraordinary := false, isHole := false, isTagged := false,
    flagIsExtraordinary := false,
    vert := fun j => if j % 4 = 0 then vBoundary else vInterior,
    edgeHead := fun j => j == 0 }

/-- Untagged interior face with no triangle heads: a full regular patch. -/
def cfRegular : Face :=
  { faceIsExtraordinary := false, isHole := false, isTagged := false,
    flagIsExtraordinary := false, vert := fun _ => vInterior,
    edgeHead := fun _ => false }

/-- Corner identifiers of a concrete Gregory face. -/
def gregFvs : Fin 4 → Nat := fun i => i.val

/-- Surrounding-vertex scan of corner 0 of that face at valence 5: the
two in-patch neighbors (vertices 1 and 3) appear at scan positions 0
and 4. -/
def gregSurround5 : List Nat := [1, 10, 11, 12, 3]

/-- A one-element surrounding-vertex list for the valence builder. -/
def oneNeighbor : List NeighborInfo := [⟨7, some 9⟩]

lemma walkNext_length (m : HbrOps) (e k : Nat) : (walkNext m e k).length = k := by
  induction k generalizing e with
  | zero => rfl
  | succ n ih => simp [walkNext, ih]

lemma walkNextOrgs_length (m : HbrOps) (rt : Nat → Nat) (e k : Nat) :
    (walkNextOrgs m rt e k).length = k := by
  simp [walkNextOrgs, walkNext_length]

lemma oneRingValues_length_16 (m : HbrOps) (rt : Nat → Nat) (f : RingFace) :
    (oneRingValues m rt f 16).length = 16 := by
  simp [oneRingValues, walkNextOrgs_length, List.length_flatMap, Function.comp_def]

lemma oneRingValues_length_12 (m : HbrOps) (rt : Nat → Nat) (f : RingFace) :
    (oneRingValues m rt f 12).length = 12 := by
  simp [oneRingValues, walkNextOrgs_length]

lemma oneRingValues_length_9 (m : HbrOps) (rt : Nat → Nat) (f : RingFace) :
    (oneRingValues m rt f 9).length = 9 := by
  simp [oneRingValues, walkNextOrgs_length]

/-- C4: for every mesh, remap table and face, getOneRing at ring sizes
16, 12 and 9 performs exactly ringsize writes (so the final
assert idx == ringsize cannot fail), the write slots are exactly the
entries of the positional remap table in order, and each remap table is
a permutation of 0..ringsize-1, so every output slot is written exactly
once. -/
theorem getOneRing_fills_every_slot (m : HbrOps) (rt : Nat → Nat) (f : RingFace) :
    ((oneRingValues m rt f 16).length = 16 ∧
      oneRingSlots remapRegular 16 (oneRingValues m rt f 16).length = remapRegular ∧
      remapRegular.Perm (List.range 16)) ∧
    ((oneRingValues m rt f 12).length = 12 ∧
      oneRingSlots remapRegularBoundary 12 (oneRingValues m rt f 12).length =
        remapRegularBoundary ∧
      remapRegularBoundary.Perm (List.range 12)) ∧
    ((oneRingValues m rt f 9).length = 9 ∧
      oneRingSlots remapRegularCorner 9 (oneRingValues m rt f 9).length =
        remapRegularCorner ∧
      remapRegularCorner.Perm (List.range 9)) := by
  refine ⟨⟨oneRingValues_length_16 m rt f, ?_, ?_⟩,
          ⟨oneRingValues_length_12 m rt f, ?_, ?_⟩,
          ⟨oneRingValues_length_9 m rt f, ?_, ?_⟩⟩
  · rw [oneRingValues_length_16]; decide
  · decide
  · rw [oneRingValues_length_12]; decide
  · decide
  · rw [oneRingValues_length_9]; decide
  · decide

/-- C3 counterexample: at the concrete Gregory corner of valence 5 whose
two in-patch neighbors sit at scan positions 0 and 4, the
adjacency-correction swap yields the pair (4, 0), and 0 is not
(4 + 1) % 4: the pair does not satisfy offset1 = offset0 + 1 mod 4. -/
theorem quadOffset_pair_mod4_cex :
    quadOffsetPair gregFvs gregSurround5 = (4, 0) ∧
    (quadOffsetPair gregFvs gregSurround5).2 ≠
      ((quadOffsetPair gregFvs gregSurround5).1 + 1) % 4 ∧
    quadOffsetWord gregFvs gregSurround5 = 4 := by
  decide

/-- C3 (amended): each 16-bit word packs the corrected pair as
offset0 bitor (offset1 shifted left by 8); and whenever the two in-patch
neighbors of the corner occupy cyclically adjacent positions of the
surrounding-vertex scan, the corrected pair satisfies
offset1 = (offset0 + 1) mod valence, where valence is the length of the
scan (mod 4 holds only at valence 4). -/
theorem quadOffset_pair_adjacent (fvs : Fin 4 → Nat) (s : List Nat)
    (h : (∃ k, gatherOffs fvs s 0 = [k, k + 1] ∧ k + 1 < s.length) ∨
         (gatherOffs fvs s 0 = [0, s.length - 1] ∧ 2 ≤ s.length)) :
    quadOffsetWord fvs s =
      ((quadOffsetPair fvs s).1 ||| ((quadOffsetPair fvs s).2 <<< 8)) ∧
    (quadOffsetPair fvs s).2 = ((quadOffsetPair fvs s).1 + 1) % s.length := by
  refine ⟨rfl, ?_⟩
  rcases h with ⟨k, hk, hlt⟩ | ⟨h0, hn⟩
  · have hcond : ¬((((k + 1 : Nat) : Int)) - ((k : Nat) : Int) ≠ 1) := by push_cast; omega
    simp [quadOffsetPair, correctedPair, hk, hcond, Nat.mod_eq_of_lt hlt]
  · by_cases h2 : s.length = 2
    · have : gatherOffs fvs s 0 = [0, 1] := by rw [h0, h2]
      simp [quadOffsetPair, correctedPair, this, h2]
    · have h3 : 3 ≤ s.length := by omega
      simp only [quadOffsetPair, correctedPair, h0]
      simp only [List.getD_cons_zero, List.getD_cons_succ]
      rw [if_pos (by push_cast; omega)]
      show (0 : Nat) = (s.length - 1 + 1) % s.length
      rw [Nat.sub_add_cancel (by omega), Nat.mod_self]

end FarPatchTablesFactory

namespace FarPatchTablesFactory

/-- C3 witness at valence 5: the two in-patch neighbors are cyclically
adjacent (positions 0 and 4 of 5), and after the correction
offset1 = (offset0 + 1) mod 5. -/
theorem quadOffset_pair_adjacent_witness :
    (quadOffsetPair gregFvs gregSurround5).2 =
      ((quadOffsetPair gregFvs gregSurround5).1 + 1) % gregSurround5.length :=
  (quadOffset_pair_adjacent gregFvs gregSurround5
    (Or.inr ⟨by decide, by decide⟩)).2

/-- Number of table entries written by the surrounding-vertex walk:
two per neighbor. -/
lemma gatherPairs_length (remap : Nat → Nat) (nbs : List NeighborInfo) :
    (gatherPairs remap nbs).length = 2 * nbs.length := by
  induction nbs with
  | nil => rfl
  | cons nb rest ih =>
    simp only [gatherPairs, List.flatMap_cons, List.length_append, List.length_cons,
      List.length_nil] at ih ⊢
    omega

/-- C7: for every connected vertex (the surrounding walk visits at least
one neighbor), the magnitude of slot 0 equals the number of
(neighbor, diagonal) pairs written (two table entries per pair), and
slot 0 is negative exactly when the vertex is on the boundary. -/
theorem valence_slot0_matches_pairs (remap : Nat → Nat) (onB : Bool)
    (nbs : List NeighborInfo) (h : nbs ≠ []) :
    (valenceSlot0 onB nbs).natAbs = gatherValence nbs ∧
    (gatherPairs remap nbs).length = 2 * gatherValence nbs ∧
    ((valenceSlot0 onB nbs) < 0 ↔ onB = true) := by
  have hpos : 0 < nbs.length := List.length_pos.mpr h
  refine ⟨?_, gatherPairs_length remap nbs, ?_⟩
  · cases onB <;> simp [valenceSlot0, gatherValence]
  · cases onB with
    | false =>
      have hv : valenceSlot0 false nbs = (nbs.length : Int) := by
        simp [valenceSlot0, gatherValence]
      rw [hv]
      constructor
      · intro hlt
        exact absurd hlt (by omega)
      · intro hc
        simp at hc
    | true =>
      have hv : valenceSlot0 true nbs = -(nbs.length : Int) := by
        simp [valenceSlot0, gatherValence]
      rw [hv]
      constructor
      · intro _
        rfl
      · intro _
        omega

/-- C7 witness: a boundary vertex with one surrounding neighbor. -/
theorem valence_slot0_matches_pairs_witness :
    (valenceSlot0 true oneNeighbor).natAbs = gatherValence oneNeighbor ∧
    (gatherPairs id oneNeighbor).length = 2 * gatherValence oneNeighbor ∧
    ((valenceSlot0 true oneNeighbor) < 0 ↔ true = true) :=
  valence_slot0_matches_pairs id true oneNeighbor (by decide)

/-- C8: when the two per-class buffers have their resized lengths
G0 * 4 and G1 * 4, the assembled quad-offset table is their
concatenation: its length is (G0 + G1) * 4, its first G0 * 4 entries
are the Gregory-regular block and the rest the Gregory-boundary block,
so the two blocks occupy disjoint sub-ranges. -/
theorem quadOffsetTable_concat (g0 g1 : Nat) (q0 q1 : List Nat)
    (h0 : q0.length = g0 * 4) (h1 : q1.length = g1 * 4) :
    assembleQuadOffsetTable g0 g1 q0 q1 = q0 ++ q1 ∧
    (assembleQuadOffsetTable g0 g1 q0 q1).length = (g0 + g1) * 4 ∧
    (assembleQuadOffsetTable g0 g1 q0 q1).take (g0 * 4) = q0 ∧
    (assembleQuadOffsetTable g0 g1 q0 q1).drop (g0 * 4) = q1 := by
  have key : assembleQuadOffsetTable g0 g1 q0 q1 = q0 ++ q1 := by
    unfold assembleQuadOffsetTable overwriteAt
    rw [List.take_replicate, List.drop_replicate]
    simp only [Nat.zero_add, List.nil_append, h1, h0]
    have hmin : min 0 ((g0 + g1) * 4) = 0 := by omega
    have hsub : (g0 + g1) * 4 - g0 * 4 = g1 * 4 := by
      have : (g0 + g1) * 4 = g0 * 4 + g1 * 4 := by ring
      omega
    rw [hmin, hsub, List.replicate_zero, List.nil_append]
    rw [List.take_append_of_le_length (by omega)]
    rw [List.take_of_length_le (by omega)]
    rw [List.drop_eq_nil_of_le
      (by simp only [List.length_append, List.length_replicate, h0]; omega)]
    simp
  refine ⟨key, ?_, ?_, ?_⟩
  · rw [key]
    simp only [List.length_append, h0, h1]
    ring
  · rw [key, ← h0, List.take_left]
  · rw [key, ← h0, List.drop_left]

/-- C8 witness: one Gregory-regular and one Gregory-boundary patch. -/
theorem quadOffsetTable_concat_witness :
    assembleQuadOffsetTable 1 1 [1, 2, 3, 4] [5, 6, 7, 8] =
      [1, 2, 3, 4] ++ [5, 6, 7, 8] ∧
    (assembleQuadOffsetTable 1 1 [1, 2, 3, 4] [5, 6, 7, 8]).length = (1 + 1) * 4 ∧
    (assembleQuadOffsetTable 1 1 [1, 2, 3, 4] [5, 6, 7, 8]).take (1 * 4) = [1, 2, 3, 4] ∧
    (assembleQuadOffsetTable 1 1 [1, 2, 3, 4] [5, 6, 7, 8]).drop (1 * 4) = [5, 6, 7, 8] :=
  quadOffsetTable_concat 1 1 [1, 2, 3, 4] [5, 6, 7, 8] (by decide) (by decide)

end FarPatchTablesFactory

namespace FarPatchTablesFactory

/-- Offset advance of one patch-array record: vertex offset by count
times control vertices, patch offset by count, quad offset by 4 per
patch for the GREGORY type only. -/
def advanceOffsets (r : PatchArrayRec) (x : Nat × Nat × Nat) : Nat × Nat × Nat :=
  (x.1 + r.npatches * ncv r.desc.kind, x.2.1 + r.npatches,
   x.2.2 + (if r.desc.kind = .GREGORY then r.npatches * 4 else 0))

/-- End offsets of a record list started at given offsets. -/
def endOffsets (l : List PatchArrayRec) (x : Nat × Nat × Nat) : Nat × Nat × Nat :=
  l.foldl (fun a r => advanceOffsets r a) x

lemma contiguousFrom_append (l : List PatchArrayRec) (v p q : Nat)
    (hc : contiguousFrom v p q l = true) (d : Descriptor) (n : Nat) (hn : 0 < n) :
    contiguousFrom v p q
      (l ++ [⟨d, (endOffsets l (v, p, q)).1, (endOffsets l (v, p, q)).2.1, n,
             (endOffsets l (v, p, q)).2.2⟩]) = true := by
  induction l generalizing v p q with
  | nil =>
    simp [contiguousFrom, endOffsets, hn]
  | cons r rest ih =>
    simp only [contiguousFrom, Bool.and_eq_true, decide_eq_true_eq] at hc
    obtain ⟨⟨⟨⟨h1, h2⟩, h3⟩, h4⟩, h5⟩ := hc
    simp only [List.cons_append, contiguousFrom, Bool.and_eq_true, decide_eq_true_eq]
    refine ⟨⟨⟨⟨h1, h2⟩, h3⟩, h4⟩, ?_⟩
    have hend : endOffsets (r :: rest) (v, p, q) =
        endOffsets rest (v + r.npatches * ncv r.desc.kind, p + r.npatches,
          q + (if r.desc.kind = .GREGORY then r.npatches * 4 else 0)) := by
      simp [endOffsets, advanceOffsets]
    rw [hend]
    exact ih _ _ _ h5

lemma planFold_inv (counts : Descriptor → Nat) (ds : List Descriptor) (st : PlanState)
    (hc : contiguousFrom 0 0 0 st.parray = true)
    (he : endOffsets st.parray (0, 0, 0) = (st.voffset, st.poffset, st.qoffset)) :
    contiguousFrom 0 0 0 (ds.foldl (pushPatchArray counts) st).parray = true ∧
    endOffsets (ds.foldl (pushPatchArray counts) st).parray (0, 0, 0) =
      ((ds.foldl (pushPatchArray counts) st).voffset,
       (ds.foldl (pushPatchArray counts) st).poffset,
       (ds.foldl (pushPatchArray counts) st).qoffset) := by
  induction ds generalizing st with
  | nil => exact ⟨hc, he⟩
  | cons d rest ih =>
    simp only [List.foldl_cons]
    by_cases h : 0 < counts d
    · apply ih
      · have hx := contiguousFrom_append st.parray 0 0 0 hc d (counts d) h
        rw [he] at hx
        simpa [pushPatchArray, h] using hx
      · simp only [pushPatchArray, if_pos h]
        rw [endOffsets, List.foldl_append]
        simp only [List.foldl_cons, List.foldl_nil]
        rw [← endOffsets, he]
        simp [advanceOffsets]
    · have hpush : pushPatchArray counts st d = st := by simp [pushPatchArray, h]
      rw [hpush]
      exact ih st hc he

lemma planFold_length (counts : Descriptor → Nat) (ds : List Descriptor) (st : PlanState) :
    ((ds.foldl (pushPatchArray counts) st).parray).length =
      st.parray.length + (ds.filter fun d => decide (0 < counts d)).length := by
  induction ds generalizing st with
  | nil => simp
  | cons d rest ih =>
    simp only [List.foldl_cons, List.filter_cons]
    by_cases h : 0 < counts d
    · rw [ih]
      simp [pushPatchArray, h]
      omega
    · rw [ih]
      simp [pushPatchArray, h]

/-- C6: the planned patch arrays are packed contiguously in canonical
descriptor order with no gaps. pushPatchArray appends nothing for a
zero count; for a positive count it appends one record taking the
current offsets, then advances the vertex offset by count times the
control vertices of the type, the patch offset by the count, and the
quad-offset-table offset by count times 4 only for the GREGORY
(Gregory-regular) type. The full plan is contiguous from offsets 0 and
holds exactly one record per descriptor with a nonzero count. -/
theorem patchArrays_packed (counts : Descriptor → Nat) :
    (∀ st d, counts d = 0 → pushPatchArray counts st d = st) ∧
    (∀ st d, 0 < counts d →
      pushPatchArray counts st d =
        ⟨st.parray ++ [⟨d, st.voffset, st.poffset, counts d, st.qoffset⟩],
         st.voffset + counts d * ncv d.kind,
         st.poffset + counts d,
         st.qoffset + (if d.kind = .GREGORY then counts d * 4 else 0)⟩) ∧
    contiguousFrom 0 0 0 (planArrays counts).parray = true ∧
    (planArrays counts).parray.length =
      (descriptorList.filter fun d => decide (0 < counts d)).length := by
  refine ⟨?_, ?_, ?_, ?_⟩
  · intro st d h
    simp [pushPatchArray, h]
  · intro st d h
    simp [pushPatchArray, h]
  · exact (planFold_inv counts descriptorList ⟨[], 0, 0, 0⟩ rfl rfl).1
  · simpa using planFold_length counts descriptorList ⟨[], 0, 0, 0⟩

/-- Concrete counts: 2 regular patches and 1 Gregory-regular patch in
the non-transition pattern. -/
def cCounts : Descriptor → Nat := fun d =>
  if d.pattern = 0 ∧ d.kind = .REGULAR then 2
  else if d.pattern = 0 ∧ d.kind = .GREGORY then 1 else 0

/-- C6 witness: with the concrete counts, a zero-count descriptor pushes
nothing, a positive one appends a record at the current offsets, and
the plan is contiguous with one record per nonzero bucket. -/
theorem patchArrays_packed_witness :
    pushPatchArray cCounts ⟨[], 0, 0, 0⟩ ⟨0, .BOUNDARY, 0⟩ = ⟨[], 0, 0, 0⟩ ∧
    pushPatchArray cCounts ⟨[], 0, 0, 0⟩ ⟨0, .REGULAR, 0⟩ =
      ⟨[⟨⟨0, .REGULAR, 0⟩, 0, 0, 2, 0⟩], 32, 2, 0⟩ ∧
    contiguousFrom 0 0 0 (planArrays cCounts).parray = true ∧
    (planArrays cCounts).parray.length = 2 := by
  obtain ⟨hz, hp, hc, hl⟩ := patchArrays_packed cCounts
  refine ⟨hz _ _ (by decide), ?_, hc, ?_⟩
  · rw [hp ⟨[], 0, 0, 0⟩ ⟨0, .REGULAR, 0⟩ (by decide)]
    decide
  · rw [hl]
    decide

end FarPatchTablesFactory

namespace FarPatchTablesFactory

lemma eligible_parts (f : Face) (he : eligibleFace f = true) :
    f.faceIsExtraordinary = false ∧ f.isHole = false ∧ f.isTagged = false ∧
    anyVertTagged f = false ∧ anyVertWasTagged f = true := by
  simp only [eligibleFace, Bool.and_eq_true, Bool.not_eq_true'] at he
  exact ⟨he.1.1.1.1, he.1.1.1.2, he.1.1.2, he.1.2, he.2⟩

lemma triangleHeads_le_four (f : Face) : triangleHeads f ≤ 4 := by
  have h := List.countP_le_length (fun j => f.edgeHead j) (l := List.range 4)
  simpa using h

lemma boundaryVerts_le_four (f : Face) : boundaryVerts f ≤ 4 := by
  have h := List.countP_le_length (fun j => (f.vert j).onBoundary) (l := List.range 4)
  simpa using h

lemma transTypeOf_isSome (f : Face) (h : triangleHeads f ≠ 0) :
    ∃ tt, transTypeOf f = some tt := by
  have h4 := triangleHeads_le_four f
  unfold transTypeOf
  set t := triangleHeads f with ht
  interval_cases t
  · exact absurd rfl h
  · exact ⟨_, rfl⟩
  · exact ⟨_, rfl⟩
  · exact ⟨_, rfl⟩
  · exact ⟨_, rfl⟩

/-- C10: the isolated untagged quad (all 4 vertices on the boundary,
valence 2, wasTagged, no triangle heads, not extraordinary) is eligible,
is assigned patch type Full by pass 2 with no counter bucket
incremented, and its flags then drive the population switch of Create
into the fatal default assert(0), modelled as none. -/
theorem fullBoundaryQuad_hits_assert :
    eligibleFace cfQuad = true ∧
    triangleHeads cfQuad = 0 ∧
    scanExtra cfQuad = false ∧
    boundaryVerts cfQuad = 4 ∧
    classifyFace cfQuad =
      some ⟨⟨.kFull, none, 0, 0, 4, false⟩, none⟩ ∧
    populateFace ⟨.kFull, none, 0, 0, 4, false⟩ = none := by
  decide

/-- C9: an eligible transition face with extraordinary topology or
exactly one boundary vertex gets no counter bucket from pass 2, and the
population dispatch of Create aborts (assert(false), modelled as none)
on every transition-typed flag record with the extraordinary flag set
or one boundary vertex, producing no patch output. -/
theorem transitionGregory_aborts (f : Face) (fl : Flags) (tt : TransType)
    (he : eligibleFace f = true) (hth : triangleHeads f ≠ 0)
    (hx : scanExtra f = true ∨ boundaryVerts f = 1)
    (hfl : fl.transitionType = some tt)
    (hge : fl.isExtraordinary = true ∨ fl.bverts = 1) :
    (∃ r, classifyFace f = some r ∧ r.bump = none ∧
      r.flags.transitionType = transTypeOf f) ∧
    populateFace fl = none := by
  obtain ⟨hfe, hh, ht, hvt, hwt⟩ := eligible_parts f he
  constructor
  · obtain ⟨tt2, htt⟩ := transTypeOf_isSome f hth
    have hguard : (!scanExtra f && !decide (boundaryVerts f = 1)) = false := by
      rcases hx with hx | hx <;> simp [hx]
    have hclass : classifyFace f =
        some ⟨⟨.kEnd, some tt2, transRots f, 0, boundaryVerts f,
          f.flagIsExtraordinary⟩, none⟩ := by
      unfold classifyFace
      rw [hfe, hh, ht, hvt, hwt, htt]
      simp only [Bool.or_self, Bool.false_eq_true, if_false, Bool.not_false,
        Bool.and_self, if_true, if_neg hth, hguard]
    exact ⟨_, hclass, rfl, by simp [htt]⟩
  · unfold populateFace
    rw [hfl]
    rcases hge with hge | hge <;> simp [hge]

/-- Transition flag record with one boundary vertex, as stored for the
concrete transition Gregory face. -/
def fl9 : Flags := ⟨.kEnd, some .T0, 0, 0, 1, false⟩

/-- C9 witness: the concrete transition face with exactly one boundary
vertex bumps no counter and its stored flags abort population. -/
theorem transitionGregory_aborts_witness :
    (∃ r, classifyFace cf9 = some r ∧ r.bump = none ∧
      r.flags.transitionType = transTypeOf cf9) ∧
    populateFace fl9 = none :=
  transitionGregory_aborts cf9 fl9 .T0 (by decide) (by decide)
    (Or.inr (by decide)) (by decide) (Or.inr (by decide))

end FarPatchTablesFactory

namespace FarPatchTablesFactory

/-- Shape of the pass-2 result for an eligible face with no triangle
heads: the Full / Gregory decision tree (lines 348-389). -/
lemma classify_noTransition (f : Face)
    (he : eligibleFace f = true) (h0 : triangleHeads f = 0) :
    classifyFace f =
      if (!scanExtra f && !decide (boundaryVerts f = 1)) = true then
        (if boundaryVerts f = 0 then
          some ⟨⟨.kFull, none, 0, 0, boundaryVerts f, f.flagIsExtraordinary⟩,
            some ⟨0, .R⟩⟩
        else if boundaryVerts f = 2 then
          some ⟨⟨.kFull, none, computeBoundaryPatchRotation f, 0, boundaryVerts f,
            f.flagIsExtraordinary⟩, some ⟨0, .B 0⟩⟩
        else if boundaryVerts f = 3 then
          some ⟨⟨.kFull, none, computeCornerPatchRotation f, 0, boundaryVerts f,
            f.flagIsExtraordinary⟩, some ⟨0, .C 0⟩⟩
        else
          some ⟨⟨.kFull, none, 0, 0, boundaryVerts f, f.flagIsExtraordinary⟩, none⟩)
      else if boundaryVerts f = 0 then
        some ⟨⟨.kGregory, none, 0, 0, boundaryVerts f, f.flagIsExtraordinary⟩,
          some ⟨0, .G 0⟩⟩
      else
        some ⟨⟨.kGregory, none, 0, 0, boundaryVerts f, f.flagIsExtraordinary⟩,
          some ⟨0, .G 1⟩⟩ := by
  obtain ⟨hfe, hh, ht, hvt, hwt⟩ := eligible_parts f he
  unfold classifyFace
  rw [hfe, hh, ht, hvt, hwt]
  simp only [Bool.or_self, Bool.false_eq_true, if_false, Bool.not_false,
    Bool.and_self, if_true, if_pos h0]

/-- Shape of the pass-2 result for an eligible face with triangle heads:
the transition decision tree (lines 391-475). -/
lemma classify_transition (f : Face) (tt : TransType)
    (he : eligibleFace f = true) (htt : transTypeOf f = some tt)
    (hth : triangleHeads f ≠ 0) :
    classifyFace f =
      if (!scanExtra f && !decide (boundaryVerts f = 1)) = true then
        (if boundaryVerts f = 0 then
          some ⟨⟨.kEnd, some tt, transRots f, 0, boundaryVerts f,
            f.flagIsExtraordinary⟩, some ⟨patIdx tt, .R⟩⟩
        else if boundaryVerts f = 2 then
          some ⟨⟨.kEnd, some tt, computeBoundaryPatchRotation f,
            (4 - transRots f + computeBoundaryPatchRotation f) % 4, boundaryVerts f,
            f.flagIsExtraordinary⟩,
            some ⟨patIdx tt,
              .B (mkRot ((4 - transRots f + computeBoundaryPatchRotation f) % 4))⟩⟩
        else if boundaryVerts f = 3 then
          some ⟨⟨.kEnd, some tt, computeCornerPatchRotation f,
            (4 - transRots f + computeCornerPatchRotation f) % 4, boundaryVerts f,
            f.flagIsExtraordinary⟩,
            some ⟨patIdx tt,
              .C (mkRot ((4 - transRots f + computeCornerPatchRotation f) % 4))⟩⟩
        else
          none)
      else
        some ⟨⟨.kEnd, some tt, transRots f, 0, boundaryVerts f,
          f.flagIsExtraordinary⟩, none⟩ := by
  obtain ⟨hfe, hh, ht, hvt, hwt⟩ := eligible_parts f he
  unfold classifyFace
  rw [hfe, hh, ht, hvt, hwt, htt]
  simp only [Bool.or_self, Bool.false_eq_true, if_false, Bool.not_false,
    Bool.and_self, if_true, if_neg hth]

/-- C1 counterexample: on the concrete eligible face whose single
triangle head is edge 1, pass 2 stores transition pattern T0 with
rotation 1 (the index of the head edge), while the index of the first
non-head edge scanning from edge 0 is 0: the stored rotation is not the
index of the first non-head edge. -/
theorem oneHead_rotation_cex :
    eligibleFace cf1 = true ∧ triangleHeads cf1 = 1 ∧
    (classifyFace cf1).map (fun r => r.flags.transitionType) = some (some .T0) ∧
    (classifyFace cf1).map (fun r => r.flags.rots) = some 1 ∧
    specFirstNonHeadIdx cf1 = 0 := by
  decide

/-- C1 (amended): for an eligible face with exactly 1 triangle-head
edge (excluding the aborting 4-boundary-vertex transition case), the
transition pattern is T0 and the rotation computed by the transition
rule is the index of the first triangle-head edge scanning from edge 0;
that value is the stored rotation except for boundary/corner topology,
where the boundary/corner rule overrides it. -/
theorem oneHead_rotation (f : Face) (he : eligibleFace f = true)
    (h1 : triangleHeads f = 1)
    (h4 : ¬(scanExtra f = false ∧ boundaryVerts f = 4)) :
    ∃ r, classifyFace f = some r ∧
      r.flags.transitionType = some .T0 ∧
      transRots f = headEdgeIdx f ∧
      (boundaryVerts f ≠ 2 → boundaryVerts f ≠ 3 → r.flags.rots = headEdgeIdx f) := by
  have hth : triangleHeads f ≠ 0 := by omega
  have htt : transTypeOf f = some .T0 := by rw [transTypeOf, h1]
  have hr : transRots f = headEdgeIdx f := by rw [transRots, h1]; rfl
  have hkey := classify_transition f .T0 he htt hth
  by_cases hg : (!scanExtra f && !decide (boundaryVerts f = 1)) = true
  · rw [if_pos hg] at hkey
    by_cases hb0 : boundaryVerts f = 0
    · rw [if_pos hb0] at hkey
      exact ⟨_, hkey, rfl, hr, fun _ _ => hr⟩
    · rw [if_neg hb0] at hkey
      by_cases hb2 : boundaryVerts f = 2
      · rw [if_pos hb2] at hkey
        exact ⟨_, hkey, rfl, hr, fun hc _ => absurd hb2 hc⟩
      · rw [if_neg hb2] at hkey
        by_cases hb3 : boundaryVerts f = 3
        · rw [if_pos hb3] at hkey
          exact ⟨_, hkey, rfl, hr, fun _ hc => absurd hb3 hc⟩
        · exfalso
          have hb4 := boundaryVerts_le_four f
          have hb1 : boundaryVerts f ≠ 1 := by
            intro hc
            simp [hc] at hg
          have hbx : scanExtra f = false := by
            by_contra hx
            rw [Bool.not_eq_false] at hx
            simp [hx] at hg
          exact h4 ⟨hbx, by omega⟩
  · rw [if_neg hg] at hkey
    exact ⟨_, hkey, rfl, hr, fun _ _ => hr⟩

/-- C1 witness: the concrete eligible interior face whose single head is
edge 0 stores rotation 0, the index of its head edge. -/
theorem oneHead_rotation_witness :
    (classifyFace cf1w).map (fun r => r.flags.rots) = some (headEdgeIdx cf1w) := by
  obtain ⟨r, hc, _, _, hrots⟩ :=
    oneHead_rotation cf1w (by decide) (by decide) (by decide)
  rw [hc]
  simp [hrots (by decide) (by decide)]

end FarPatchTablesFactory

namespace FarPatchTablesFactory

/-- C5: an eligible transition face with boundary (2 boundary vertices)
or corner (3 boundary vertices) topology gets its rotation recomputed
by the boundary/corner rule, stores the second boundary rotation
(4 - transitionRotation + boundaryRotation) mod 4, and increments
exactly the boundary/corner counter of its pattern bucketed by that
boundary rotation. -/
theorem transBoundaryCorner_brots (f : Face)
    (he : eligibleFace f = true) (hth : triangleHeads f ≠ 0)
    (hx : scanExtra f = false)
    (hb : boundaryVerts f = 2 ∨ boundaryVerts f = 3) :
    ∃ tt, transTypeOf f = some tt ∧
      classifyFace f = some
        ⟨⟨.kEnd, some tt, boundaryCornerRot f,
          (4 - transRots f + boundaryCornerRot f) % 4, boundaryVerts f,
          f.flagIsExtraordinary⟩,
         some ⟨patIdx tt,
           if boundaryVerts f = 2 then
             .B (mkRot ((4 - transRots f + boundaryCornerRot f) % 4))
           else
             .C (mkRot ((4 - transRots f + boundaryCornerRot f) % 4))⟩⟩ := by
  obtain ⟨tt, htt⟩ := transTypeOf_isSome f hth
  have hkey := classify_transition f tt he htt hth
  refine ⟨tt, htt, ?_⟩
  rcases hb with hb | hb
  · have hg : (!scanExtra f && !decide (boundaryVerts f = 1)) = true := by
      simp [hx, hb]
    rw [if_pos hg, if_neg (by omega), if_pos hb] at hkey
    rw [hkey]
    simp [boundaryCornerRot, hb]
  · have hg : (!scanExtra f && !decide (boundaryVerts f = 1)) = true := by
      simp [hx, hb]
    rw [if_pos hg, if_neg (by omega), if_neg (by omega), if_pos hb] at hkey
    rw [hkey]
    simp [boundaryCornerRot, hb]

/-- C5 witness: the concrete transition face with one boundary edge and
head edge 0 stores rotation 0, boundary rotation (4 - 0 + 0) mod 4 = 0,
and bumps the boundary counter of pattern T0 at rotation 0. -/
theorem transBoundaryCorner_brots_witness :
    classifyFace cf5 = some
      ⟨⟨.kEnd, some .T0, 0, 0, 2, false⟩, some ⟨1, .B (mkRot 0)⟩⟩ := by
  obtain ⟨tt, htt, hc⟩ :=
    transBoundaryCorner_brots cf5 (by decide) (by decide) (by decide)
      (Or.inl (by decide))
  have h2 : transTypeOf cf5 = some TransType.T0 := by decide
  rw [h2] at htt
  injection htt with htt0
  subst htt0
  rw [hc]
  decide

end FarPatchTablesFactory

namespace FarPatchTablesFactory

lemma classify_not_eligible (f : Face) (helig : eligibleFace f = false) :
    ∃ fl, classifyFace f = some ⟨fl, none⟩ := by
  unfold classifyFace
  by_cases hfe : f.faceIsExtraordinary = true
  · rw [hfe]
    exact ⟨_, rfl⟩
  rw [Bool.not_eq_true] at hfe
  by_cases hh : f.isHole = true
  · rw [hfe, hh]
    exact ⟨_, rfl⟩
  rw [Bool.not_eq_true] at hh
  by_cases ht : f.isTagged = true
  · rw [hfe, hh, ht]
    exact ⟨_, rfl⟩
  rw [Bool.not_eq_true] at ht
  have hcond : (!anyVertTagged f && anyVertWasTagged f) = false := by
    simp only [eligibleFace, hfe, hh, ht, Bool.not_false, Bool.true_and] at helig
    exact helig
  rw [hfe, hh, ht, hcond]
  exact ⟨_, rfl⟩

lemma classify_bump_counted (f : Face) (r : Classified)
    (h : classifyFace f = some r) : r.bump.isSome = countedFace f := by
  by_cases helig : eligibleFace f = true
  case neg =>
    rw [Bool.not_eq_true] at helig
    obtain ⟨fl, hc⟩ := classify_not_eligible f helig
    rw [hc] at h
    injection h with h
    subst h
    simp [countedFace, helig]
  case pos =>
    have hcf : countedFace f =
        (if triangleHeads f = 0 then
          !(!scanExtra f && decide (boundaryVerts f = 4))
        else
          !scanExtra f && !decide (boundaryVerts f = 1)) := by
      simp [countedFace, helig]
    by_cases h0 : triangleHeads f = 0
    · have hkey := classify_noTransition f helig h0
      rw [hkey] at h
      rw [hcf, if_pos h0]
      by_cases hg : (!scanExtra f && !decide (boundaryVerts f = 1)) = true
      · have hx : scanExtra f = false := by
          rcases Bool.and_eq_true_iff.mp hg with ⟨hx, _⟩
          simpa using hx
        rw [if_pos hg] at h
        by_cases hb0 : boundaryVerts f = 0
        · rw [if_pos hb0] at h
          injection h with h
          subst h
          simp [hb0]
        · rw [if_neg hb0] at h
          by_cases hb2 : boundaryVerts f = 2
          · rw [if_pos hb2] at h
            injection h with h
            subst h
            simp [hb2]
          · rw [if_neg hb2] at h
            by_cases hb3 : boundaryVerts f = 3
            · rw [if_pos hb3] at h
              injection h with h
              subst h
              simp [hb3]
            · rw [if_neg hb3] at h
              injection h with h
              subst h
              have hb1 : boundaryVerts f ≠ 1 := by
                intro hc
                simp [hc] at hg
              have hb4 : boundaryVerts f = 4 := by
                have := boundaryVerts_le_four f
                omega
              simp [hb4, hx]
      · rw [if_neg hg] at h
        have hgor : scanExtra f = true ∨ boundaryVerts f = 1 := by
          rcases Bool.eq_false_or_eq_true (scanExtra f) with hx2 | hx2
          · exact Or.inl hx2
          · right
            by_contra h2
            exact hg (by simp [hx2, h2])
        by_cases hb0 : boundaryVerts f = 0
        · rw [if_pos hb0] at h
          injection h with h
          subst h
          rcases hgor with hgx | hgx
          · simp [hgx]
          · omega
        · rw [if_neg hb0] at h
          injection h with h
          subst h
          rcases hgor with hgx | hgx
          · simp [hgx]
          · simp [hgx]
    · obtain ⟨tt, htt⟩ := transTypeOf_isSome f h0
      have hkey := classify_transition f tt helig htt h0
      rw [hkey] at h
      rw [hcf, if_neg h0]
      by_cases hg : (!scanExtra f && !decide (boundaryVerts f = 1)) = true
      · rw [if_pos hg] at h
        rw [hg]
        by_cases hb0 : boundaryVerts f = 0
        · rw [if_pos hb0] at h
          injection h with h
          subst h
          rfl
        · rw [if_neg hb0] at h
          by_cases hb2 : boundaryVerts f = 2
          · rw [if_pos hb2] at h
            injection h with h
            subst h
            rfl
          · rw [if_neg hb2] at h
            by_cases hb3 : boundaryVerts f = 3
            · rw [if_pos hb3] at h
              injection h with h
              subst h
              rfl
            · rw [if_neg hb3] at h
              exact absurd h (by simp)
      · rw [if_neg hg] at h
        injection h with h
        subst h
        simp only [Option.isSome_none]
        rw [Bool.not_eq_true] at hg
        exact hg.symm

lemma total_applyBump (c : Counters) (ob : Option Bucket) :
    (applyBump c ob).total = c.total + (if ob.isSome then 1 else 0) := by
  cases ob with
  | none => simp [applyBump]
  | some b =>
    show Counters.total (Function.update c b (c b + 1)) = c.total + 1
    unfold Counters.total
    rw [Finset.sum_update_of_mem (Finset.mem_univ b)]
    rw [Finset.sum_eq_sum_diff_singleton_add (Finset.mem_univ b) c]
    omega

lemma foldl_pass2Step_none (fs : List Face) : fs.foldl pass2Step none = none := by
  induction fs with
  | nil => rfl
  | cons f fs ih => simpa [pass2Step] using ih

lemma pass2_fold_total (fs : List Face) (c0 c : Counters)
    (h : fs.foldl pass2Step (some c0) = some c) :
    c.total = c0.total + fs.countP countedFace := by
  induction fs generalizing c0 with
  | nil =>
    simp only [List.foldl_nil] at h
    obtain rfl := Option.some.inj h
    simp
  | cons f fs ih =>
    rw [List.foldl_cons] at h
    cases hr : classifyFace f with
    | none =>
      rw [show pass2Step (some c0) f = none by simp [pass2Step, hr]] at h
      rw [foldl_pass2Step_none] at h
      exact absurd h (by simp)
    | some r =>
      rw [show pass2Step (some c0) f = some (applyBump c0 r.bump) by
        simp [pass2Step, hr]] at h
      have hrec := ih _ h
      have hbc := classify_bump_counted f r hr
      rw [hrec, total_applyBump, List.countP_cons]
      cases hcf : countedFace f with
      | false =>
        rw [hcf] at hbc
        simp [hbc]
      | true =>
        rw [hcf] at hbc
        simp [hbc]
        omega

/-- C2 (amended): when pass 2 completes, the sum of the patch counts
over all (pattern, type, rotation) buckets equals the number of counted
faces: the eligible faces excluding full-patch faces with 4 boundary
vertices and transition faces with extraordinary or one-boundary-vertex
topology, which increment no bucket. -/
theorem pass2_total_counts (fs : List Face) (c : Counters)
    (h : pass2 fs = some c) :
    Counters.total c = fs.countP countedFace := by
  have hz : Counters.total (fun _ => 0) = 0 := by
    simp [Counters.total]
  have := pass2_fold_total fs _ c h
  rw [hz] at this
  simpa using this

/-- C2 counterexample: the list holding only the isolated boundary quad
has 1 eligible face, yet pass 2 completes with all counter buckets
summing to 0: the bucket sum undercounts the eligible faces. -/
theorem pass2_total_cex :
    (pass2 [cfQuad]).map Counters.total = some 0 ∧
    [cfQuad].countP eligibleFace = 1 := by
  constructor
  · decide
  · decide

/-- C2 witness: on a concrete two-face list pass 2 completes and the
bucket sum equals the number of counted faces. -/
theorem pass2_total_counts_witness :
    (pass2 [cfRegular, cfQuad]).map Counters.total =
      some ([cfRegular, cfQuad].countP countedFace) := by
  cases hp : pass2 [cfRegular, cfQuad] with
  | none =>
    have hs : (pass2 [cfRegular, cfQuad]).isSome = true := by decide
    rw [hp] at hs
    simp at hs
  | some c =>
    exact congrArg some (pass2_total_counts [cfRegular, cfQuad] c hp)

end FarPatchTablesFactory
